import Mathlib

/-!
Verification development for `src/app.py` (statistics-web).

The file shallowly embeds the data-transformation core of the repository:
the timestamp parser `parse_timestamp`, the query-log aggregator
`calculate_stats`, the statistics/organization merge performed by
`load_vin_data`, the identifier normalization (`pandas.Series.str.zfill`),
and the VIN lookup filter of `show_vin_search`.  Strings are Lean `String`
(lists of characters); missing values (`None` in Python, `NaN` in pandas
cells) are `Option`; raised exceptions are `Except.error`.
-/

/-! ### Python string primitives (ASCII model) -/

/-- Python whitespace characters (ASCII part), as used by `str.strip()`. -/
def isPySpace (c : Char) : Bool :=
  decide (c = ' ' ∨ c = '\t' ∨ c = '\n' ∨ c = '\r' ∨ c = '\x0b' ∨ c = '\x0c')

def pyStripList (l : List Char) : List Char :=
  ((l.dropWhile isPySpace).reverse.dropWhile isPySpace).reverse

/-- Model of Python `str.strip()` (ASCII whitespace). -/
def pyStrip (s : String) : String := ⟨pyStripList s.data⟩

/-- Model of Python `str.upper()` on one character (ASCII range). -/
def upChar (c : Char) : Char :=
  if 97 ≤ c.toNat ∧ c.toNat ≤ 122 then Char.ofNat (c.toNat - 32) else c

/-- Model of Python `str.lower()` on one character (ASCII range). -/
def lowChar (c : Char) : Char :=
  if 65 ≤ c.toNat ∧ c.toNat ≤ 90 then Char.ofNat (c.toNat + 32) else c

def pyUpper (s : String) : String := ⟨s.data.map upChar⟩

def pyLower (s : String) : String := ⟨s.data.map lowChar⟩

/-- Model of `pandas.Series.str.zfill(w)`: pad on the left with `'0'` up to
width `w`; strings of length at least `w` are returned unchanged.  (Unlike
Python's `str.zfill`, the pandas string accessor has no special handling for
a leading sign: it is a plain left pad, per its documentation.) -/
def zfill (w : Nat) (s : String) : String :=
  if s.length < w then ⟨List.replicate (w - s.length) '0' ++ s.data⟩ else s

/-- Model of `pandas astype(str)` on a cell of a `dtype=str` CSV column: a
present cell is the string itself; a missing cell is the float `NaN`, which
`astype(str)` renders as the literal string `"nan"`. -/
def cellToStr : Option String → String
  | none => "nan"
  | some s => s

/-- Normalization of the statistics customer identifier, from
`df["CUSTOMERID"].astype(str).str.zfill(9)` (app.py line 493); the same
expression is applied to the organization `CODE` column (line 517). -/
def normalizeCustomerId (cell : Option String) : String := zfill 9 (cellToStr cell)

/-- Normalization of the optional manufacturer code, from
`df["MANUFACTURERCODE"].astype(str).str.zfill(2)` (app.py line 498). -/
def normalizeManufacturerCode (cell : Option String) : String := zfill 2 (cellToStr cell)

/-! ### Dates and datetimes -/

/-- A Python `datetime.date`. -/
structure PyDate where
  year : Nat
  month : Nat
  day : Nat
deriving DecidableEq, Repr

/-- A Python `datetime.datetime` as produced by `datetime.strptime` with the
formats used in app.py: calendar fields plus an optional UTC offset in
seconds (present exactly when the `%z` directive matched). -/
structure PyDateTime where
  year : Nat
  month : Nat
  day : Nat
  hour : Nat
  minute : Nat
  second : Nat
  utcOffset : Option Int
deriving DecidableEq, Repr

/-- Model of `datetime.date()` — the wall-clock date portion (no tz conversion). -/
def dateOf (dt : PyDateTime) : PyDate := ⟨dt.year, dt.month, dt.day⟩

/-- Python `date.__le__`: lexicographic on (year, month, day). -/
def dle (a b : PyDate) : Bool :=
  decide (a.year < b.year ∨ (a.year = b.year ∧
    (a.month < b.month ∨ (a.month = b.month ∧ a.day ≤ b.day))))

def isLeapYear (y : Nat) : Bool := decide (y % 4 = 0 ∧ (y % 100 ≠ 0 ∨ y % 400 = 0))

def daysInMonth (y m : Nat) : Nat :=
  if m = 2 then (if isLeapYear y then 29 else 28)
  else if m = 4 ∨ m = 6 ∨ m = 9 ∨ m = 11 then 30 else 31

/-- The validation performed by the `datetime` constructor on the fields that
the strptime regex does not already pin down: `MINYEAR = 1` and the day must
exist in the given month. -/
def validDate (y mo d : Nat) : Bool := decide (1 ≤ y ∧ d ≤ daysInMonth y mo)

/-! ### strptime for the two formats used by `parse_timestamp`

CPython's `_strptime` compiles each directive to a regex alternation and
requires the whole input to be consumed.  The functions below transcribe
those alternations character by character; a two-digit branch is attempted
first and the one-digit branch second, which is equivalent to the regex
backtracking because every directive here is followed by a non-digit
delimiter (or by `%z`, whose first character is never a digit). -/

def isDigitC (c : Char) : Bool := decide (48 ≤ c.toNat ∧ c.toNat ≤ 57)

def digitVal (c : Char) : Nat := c.toNat - 48

/-- Directive `%Y`: exactly four digits. -/
def pYear : List Char → Option (Nat × List Char)
  | a :: b :: c :: d :: rest =>
    if isDigitC a ∧ isDigitC b ∧ isDigitC c ∧ isDigitC d then
      some (digitVal a * 1000 + digitVal b * 100 + digitVal c * 10 + digitVal d, rest)
    else none
  | _ => none

/-- A literal character of the format string (`-` or `:`). -/
def pLit (c : Char) : List Char → Option (List Char)
  | x :: rest => if x = c then some rest else none
  | [] => none

/-- The literal `T`; `_strptime` compiles the pattern with `re.IGNORECASE`,
so a lowercase `t` also matches. -/
def pT : List Char → Option (List Char)
  | x :: rest => if x = 'T' ∨ x = 't' then some rest else none
  | [] => none

/-- Directive `%m`: regex `1[0-2]|0[1-9]|[1-9]`. -/
def pMonth : List Char → Option (Nat × List Char)
  | c1 :: c2 :: rest =>
    if isDigitC c1 ∧ isDigitC c2 then
      if (c1 = '1' ∧ digitVal c2 ≤ 2) ∨ (c1 = '0' ∧ 1 ≤ digitVal c2) then
        some (digitVal c1 * 10 + digitVal c2, rest)
      else none
    else if isDigitC c1 ∧ 1 ≤ digitVal c1 then some (digitVal c1, c2 :: rest) else none
  | [c1] => if isDigitC c1 ∧ 1 ≤ digitVal c1 then some (digitVal c1, []) else none
  | [] => none

/-- Directive `%d`: regex `3[01]|[12]\d|0[1-9]|[1-9]`. -/
def pDay : List Char → Option (Nat × List Char)
  | c1 :: c2 :: rest =>
    if isDigitC c1 ∧ isDigitC c2 then
      if (c1 = '3' ∧ digitVal c2 ≤ 1) ∨ c1 = '1' ∨ c1 = '2' ∨ (c1 = '0' ∧ 1 ≤ digitVal c2) then
        some (digitVal c1 * 10 + digitVal c2, rest)
      else none
    else if isDigitC c1 ∧ 1 ≤ digitVal c1 then some (digitVal c1, c2 :: rest) else none
  | [c1] => if isDigitC c1 ∧ 1 ≤ digitVal c1 then some (digitVal c1, []) else none
  | [] => none

/-- Directive `%H`: regex `2[0-3]|[0-1]\d|\d`. -/
def pHour : List Char → Option (Nat × List Char)
  | c1 :: c2 :: rest =>
    if isDigitC c1 ∧ isDigitC c2 then
      if (c1 = '2' ∧ digitVal c2 ≤ 3) ∨ c1 = '0' ∨ c1 = '1' then
        some (digitVal c1 * 10 + digitVal c2, rest)
      else none
    else if isDigitC c1 then some (digitVal c1, c2 :: rest) else none
  | [c1] => if isDigitC c1 then some (digitVal c1, []) else none
  | [] => none

/-- Directives `%M` and `%S`: regex `[0-5]\d|\d`. -/
def pMinSec : List Char → Option (Nat × List Char)
  | c1 :: c2 :: rest =>
    if isDigitC c1 ∧ isDigitC c2 then
      if digitVal c1 ≤ 5 then some (digitVal c1 * 10 + digitVal c2, rest)
      else none
    else if isDigitC c1 then some (digitVal c1, c2 :: rest) else none
  | [c1] => if isDigitC c1 then some (digitVal c1, []) else none
  | [] => none

/-- The shared prefix `%Y-%m-%dT%H:%M:%S` of both formats. -/
def pDateTimeCore (l : List Char) : Option ((Nat × Nat × Nat × Nat × Nat × Nat) × List Char) := do
  let (y, l) ← pYear l
  let l ← pLit '-' l
  let (mo, l) ← pMonth l
  let l ← pLit '-' l
  let (d, l) ← pDay l
  let l ← pT l
  let (h, l) ← pHour l
  let l ← pLit ':' l
  let (mi, l) ← pMinSec l
  let l ← pLit ':' l
  let (s, l) ← pMinSec l
  pure ((y, mo, d, h, mi, s), l)

/-- The optional `:SS(.ffffff)?` tail of `%z`, which must reach the end of
the input; returns the seconds component.  Fraction digits are consumed and
discarded (they are microseconds, irrelevant to every claim). -/
def pOffTail (l : List Char) : Option Nat :=
  match l with
  | [] => some 0
  | _ =>
    let l1 := match l with
      | ':' :: r => r
      | _ => l
    match l1 with
    | c1 :: c2 :: rest =>
      if isDigitC c1 ∧ isDigitC c2 ∧ digitVal c1 ≤ 5 then
        let ss := digitVal c1 * 10 + digitVal c2
        match rest with
        | [] => some ss
        | '.' :: ds =>
          if ds ≠ [] ∧ ds.length ≤ 6 ∧ ds.all isDigitC then some ss else none
        | _ => none
      else none
    | _ => none

/-- Directive `%z`: regex `[+-]\d\d:?[0-5]\d(:?[0-5]\d(\.\d{1,6})?)?|(?-i:Z)`,
required to consume the rest of the input; returns the offset in seconds. -/
def pOffset : List Char → Option Int
  | ['Z'] => some (0 : Int)
  | c :: h1 :: h2 :: rest =>
    if (c = '+' ∨ c = '-') ∧ isDigitC h1 ∧ isDigitC h2 then
      let rest1 := match rest with
        | ':' :: r => r
        | _ => rest
      match rest1 with
      | m1 :: m2 :: rest2 =>
        if isDigitC m1 ∧ isDigitC m2 ∧ digitVal m1 ≤ 5 then
          match pOffTail rest2 with
          | some ss =>
            let total : Int := ((digitVal h1 * 10 + digitVal h2) * 3600
              + (digitVal m1 * 10 + digitVal m2) * 60 + ss : Nat)
            if c = '-' then some (-total) else some total
          | none => none
        else none
      | _ => none
    else none
  | _ => none

/-- Model of `datetime.strptime(s, "%Y-%m-%dT%H:%M:%S")`, as `none` on `ValueError`. -/
def strptimeNaive (s : String) : Option PyDateTime :=
  match pDateTimeCore s.data with
  | some ((y, mo, d, h, mi, se), []) =>
    if validDate y mo d then some ⟨y, mo, d, h, mi, se, none⟩ else none
  | _ => none

/-- Model of `datetime.strptime(s, "%Y-%m-%dT%H:%M:%S%z")`, as `none` on `ValueError`.
Besides the date validation, `datetime.timezone` only accepts offsets
strictly between -24 and +24 hours. -/
def strptimeOffsetFmt (s : String) : Option PyDateTime :=
  match pDateTimeCore s.data with
  | some ((y, mo, d, h, mi, se), rest) =>
    match pOffset rest with
    | some off =>
      if validDate y mo d ∧ -86399 ≤ off ∧ off ≤ 86399 then
        some ⟨y, mo, d, h, mi, se, some off⟩
      else none
    | none => none
  | _ => none

def dropLastStr (s : String) : String := ⟨s.data.dropLast⟩

/-- Model of `s.endswith("Z")`. -/
def endsWithZ (s : String) : Bool := decide (s.data.getLast? = some 'Z')

/-- Function `parse_timestamp` (app.py lines 33-62): strip the input (`None` becomes
the empty string), then try the offset format, the naive format, and — if
the string ends in a literal `Z` — the naive format on the string without
its last character; raise `ValueError` when all fail. -/
def parse_timestamp (ts : Option String) : Except String PyDateTime :=
  let s := pyStrip (ts.getD "")
  match strptimeOffsetFmt s with
  | some dt => Except.ok dt
  | none =>
    match strptimeNaive s with
    | some dt => Except.ok dt
    | none =>
      if endsWithZ s then
        match strptimeNaive (dropLastStr s) with
        | some dt => Except.ok dt
        | none => Except.error ("Ne mogu parsirati time_stamp: " ++ s)
      else Except.error ("Ne mogu parsirati time_stamp: " ++ s)

example : parse_timestamp (some "2025-11-01T07:31:56+0000")
    = Except.ok ⟨2025, 11, 1, 7, 31, 56, some 0⟩ := rfl

example : parse_timestamp (some "2025-11-01T07:31:56")
    = Except.ok ⟨2025, 11, 1, 7, 31, 56, none⟩ := rfl

example : parse_timestamp (some "2025-11-01T07:31:56Z")
    = Except.ok ⟨2025, 11, 1, 7, 31, 56, some 0⟩ := rfl

example : (parse_timestamp (some "2025-02-30T07:31:56")).isOk = false := by decide

example : (parse_timestamp (some "garbage")).isOk = false := by decide

/-! ### Query-log records and `calculate_stats` (app.py lines 188-237) -/

/-- One query-log record, as the dicts appended to `data` by `load_ah_data`.
`rec.get(k)` on a possibly absent key is an `Option`. -/
structure QueryRecord where
  user_id : Option String
  organization_id : Option String
  organization_name : Option String
  query_vin : Option String
  time_stamp : Option String
  response_type : Option String
deriving DecidableEq, Repr

/-- The row stored in `unique_records` (the five exported columns). -/
structure ExportRow where
  user_id : Option String
  organization_id : Option String
  organization_name : Option String
  query_vin : Option String
  time_stamp : Option String
deriving DecidableEq, Repr

def toRow (r : QueryRecord) : ExportRow :=
  ⟨r.user_id, r.organization_id, r.organization_name, r.query_vin, r.time_stamp⟩

/-- The deduplication key `(qvin, ts_str)` of app.py line 215.  The second
component is the raw `time_stamp` string of the record (always `some _` for
records that reach the key computation). -/
def recKey (r : QueryRecord) : Option String × Option String :=
  (r.query_vin, r.time_stamp)

def rowKey (r : ExportRow) : Option String × Option String :=
  (r.query_vin, r.time_stamp)

/-- The date a surviving record is counted under: `parse_timestamp(ts).date()`. -/
def recDate (r : QueryRecord) : PyDate :=
  match parse_timestamp r.time_stamp with
  | Except.ok dt => dateOf dt
  | Except.error _ => ⟨0, 0, 0⟩

/-- Whether one iteration of the `calculate_stats` loop reaches the
deduplication step for this record: the organization filter (an empty
`org_name` filters nothing), a present non-empty `time_stamp`, a parseable
timestamp, and the inclusive date-range check `d_from <= d <= d_to`. -/
def survives (org : String) (dFrom dTo : PyDate) (r : QueryRecord) : Bool :=
  if org ≠ "" ∧ r.organization_name ≠ some org then false
  else match r.time_stamp with
    | none => false
    | some ts =>
      if ts = "" then false
      else match parse_timestamp (some ts) with
        | Except.error _ => false
        | Except.ok dt => dle dFrom (dateOf dt) && dle (dateOf dt) dTo

/-- A Python `dict`/`Counter` increment: bump the value at the key if it is
present (keeping the insertion position), otherwise append the key with
count 1 at the end. -/
def bump {α : Type} [DecidableEq α] : List (α × Nat) → α → List (α × Nat)
  | [], k => [(k, 1)]
  | (a, n) :: rest, k =>
    if a = k then (a, n + 1) :: rest else (a, n) :: bump rest k

/-- Update `vin_counter[qvin] += 1` guarded by `if qvin:` (truthiness: the VIN is
counted only when present and non-empty), app.py lines 231-232. -/
def bumpVin (m : List (String × Nat)) (r : QueryRecord) : List (String × Nat) :=
  match r.query_vin with
  | some v => if v ≠ "" then bump m v else m
  | none => m

/-- The loop state of `calculate_stats`: the insertion-ordered dict
`unique_records`, the `per_day` counter, and the `vin_counter`. -/
structure StState where
  uniq : List ((Option String × Option String) × ExportRow)
  perDay : List (PyDate × Nat)
  vins : List (String × Nat)
deriving DecidableEq, Repr

/-- One iteration of the `for item in data` loop of `calculate_stats`
(app.py lines 196-232), transcribed condition by condition. -/
def statsStep (org : String) (dFrom dTo : PyDate) (st : StState) (item : QueryRecord) :
    StState :=
  if org ≠ "" ∧ item.organization_name ≠ some org then st
  else match item.time_stamp with
    | none => st
    | some ts =>
      if ts = "" then st
      else match parse_timestamp (some ts) with
        | Except.error _ => st
        | Except.ok dt =>
          let d := dateOf dt
          if dle dFrom d && dle d dTo then
            let key := (item.query_vin, some ts)
            if st.uniq.any (fun p => p.1 = key) then st
            else
              { uniq := st.uniq ++ [(key, toRow item)]
                perDay := bump st.perDay d
                vins := bumpVin st.vins item }
          else st

/-- Stable descending insertion by count (an element is placed after every
earlier element whose count is at least as large). -/
def insertDesc (x : String × Nat) : List (String × Nat) → List (String × Nat)
  | [] => [x]
  | y :: ys => if y.2 ≤ x.2 then x :: y :: ys else y :: insertDesc x ys

/-- Stable sort by descending count; `Counter.most_common` is documented as
`sorted(iterable, key=key, reverse=True)[:n]`, and `sorted` is stable. -/
def isortDesc : List (String × Nat) → List (String × Nat)
  | [] => []
  | x :: xs => insertDesc x (isortDesc xs)

/-- Function `calculate_stats(data, org_name, d_from, d_to)` (app.py lines 188-237):
returns `(export_rows, per_day, top_vins)`. -/
def calculate_stats (data : List QueryRecord) (org : String) (dFrom dTo : PyDate) :
    List ExportRow × List (PyDate × Nat) × List (String × Nat) :=
  let st := data.foldl (statsStep org dFrom dTo) ⟨[], [], []⟩
  (st.uniq.map (fun p => p.2), st.perDay, (isortDesc st.vins).take 5)

/-! Specification-side decompositions used to state the claims. -/

/-- The records of `data` that pass all the per-record filters. -/
def survivors (data : List QueryRecord) (org : String) (dFrom dTo : PyDate) :
    List QueryRecord :=
  data.filter (survives org dFrom dTo)

/-- Generic first-occurrence deduplication by `recKey`. -/
def dedupByKey (l : List QueryRecord) : List QueryRecord :=
  l.foldl (fun acc r => if acc.any (fun q => recKey q = recKey r) then acc else acc ++ [r]) []

/-- The per-day counter a record list gives rise to. -/
def perDayOf (l : List QueryRecord) : List (PyDate × Nat) :=
  l.foldl (fun m r => bump m (recDate r)) []

/-- The VIN counter a record list gives rise to. -/
def vinCountOf (l : List QueryRecord) : List (String × Nat) :=
  l.foldl bumpVin []

/-- The non-empty VINs of a record list in order of first occurrence. -/
def firstOccKeys (l : List QueryRecord) : List String :=
  l.foldl (fun acc r =>
    match r.query_vin with
    | some v => if v ≠ "" ∧ v ∉ acc then acc ++ [v] else acc
    | none => acc) []

/-! ### The statistics/organization merge of `load_vin_data`
(app.py lines 470-521) and the VIN lookup filter (lines 636-656). -/

/-- A raw row of a `<year>_statistika.csv` file (`dtype=str`: every present
cell is a string, absent cells are `NaN`). -/
structure RawStatRow where
  customerid : Option String
  manufacturercode : Option String
  vinnumber : Option String
  tstamp : Option String
deriving DecidableEq, Repr

/-- A raw row of the `Organizations` sheet. -/
structure RawOrgRow where
  code : Option String
  name : Option String
deriving DecidableEq, Repr

/-- A statistics row after normalization and tagging with the filename year. -/
structure StatRow where
  customerid : String
  manufacturercode : String
  vinnumber : Option String
  tstamp : Option String
  year : String
deriving DecidableEq, Repr

/-- An organization row after `CODE` is normalized and renamed `CUSTOMERID`. -/
structure OrgRow where
  customerid : String
  name : Option String
deriving DecidableEq, Repr

/-- A row of the merged frame: the statistics columns plus, when the left
join found a partner, the organization columns (all-`NaN` otherwise). -/
structure MergedRow where
  stat : StatRow
  org : Option OrgRow
deriving DecidableEq, Repr

def normStatRow (year : String) (r : RawStatRow) : StatRow :=
  ⟨normalizeCustomerId r.customerid, normalizeManufacturerCode r.manufacturercode,
    r.vinnumber, r.tstamp, year⟩

def normOrgRow (r : RawOrgRow) : OrgRow := ⟨normalizeCustomerId r.code, r.name⟩

/-- The organization rows matching a statistics row's key. -/
def matchesOf (orgs : List OrgRow) (s : StatRow) : List OrgRow :=
  orgs.filter (fun o => o.customerid = s.customerid)

/-- Model of `stat_df.merge(org_df, on="CUSTOMERID", how="left")` (app.py line 520):
pandas keeps the left rows in order; a row with matches is repeated once per
matching right row (in right order), a row without matches appears once with
null organization columns. -/
def mergeLeft (stats : List StatRow) (orgs : List OrgRow) : List MergedRow :=
  stats.flatMap (fun s =>
    if (matchesOf orgs s).isEmpty then [⟨s, none⟩]
    else (matchesOf orgs s).map (fun o => ⟨s, some o⟩))

/-- The merge as performed on raw inputs: normalize both sides, then left
join on the normalized identifier. -/
def mergeNormalized (stats : List (String × RawStatRow)) (orgs : List RawOrgRow) :
    List MergedRow :=
  mergeLeft (stats.map (fun p => normStatRow p.1 p.2)) (orgs.map normOrgRow)

/-- The names bound at module level by the import block of app.py
(lines 1-11): `import os, json, csv`, `from datetime import datetime, date`,
`from collections import Counter`, `from io import BytesIO`,
`import pandas as pd`, `import streamlit as st`,
`from openpyxl import Workbook`, `import matplotlib.pyplot as plt`. -/
def moduleImportedNames : List String :=
  ["os", "json", "csv", "datetime", "date", "Counter", "BytesIO",
    "pd", "st", "Workbook", "plt"]

/-- One statistics CSV file: the year tag derived from its filename, whether
the `CUSTOMERID` column is present, and its rows. -/
structure StatFile where
  yearTag : String
  hasCustomerCol : Bool
  rows : List RawStatRow
deriving DecidableEq, Repr

/-- The `Organizations.xlsx` sheet: whether `CODE` is present, and its rows. -/
structure OrgFileData where
  hasCodeCol : Bool
  rows : List RawOrgRow
deriving DecidableEq, Repr

/-- The per-file loop of `load_vin_data` (app.py lines 484-501): fail on the
first file missing `CUSTOMERID`, otherwise normalize and tag each frame. -/
def loadFrames : List StatFile → Except String (List StatRow)
  | [] => Except.ok []
  | f :: fs =>
    if f.hasCustomerCol then
      match loadFrames fs with
      | Except.ok rest => Except.ok (f.rows.map (normStatRow f.yearTag) ++ rest)
      | Except.error e => Except.error e
    else Except.error "U datoteci nedostaje kolona CUSTOMERID."

/-- Function `load_vin_data` (app.py lines 470-521).  Its first statement evaluates
`glob.glob(pattern)`; `glob` is a free name in the function body, so Python
resolves it in the module globals, and the call raises `NameError` unless
the module's import block bound the name `glob`.  The rest of the body (the
branch below the guard) is the load + merge pipeline as written. -/
def load_vin_data (files : List StatFile) (orgFile : Option OrgFileData) :
    Except String (List MergedRow) :=
  if "glob" ∈ moduleImportedNames then
    if files.isEmpty then Except.error "Nisam nasao statisticke CSV datoteke u data/"
    else
      match loadFrames files with
      | Except.error e => Except.error e
      | Except.ok stats =>
        match orgFile with
        | none => Except.error "Nisam nasao Organizations.xlsx u data/"
        | some og =>
          if og.hasCodeCol then
            Except.ok (mergeLeft stats (og.rows.map normOrgRow))
          else Except.error "U Organizations.xlsx nedostaje kolona CODE."
  else Except.error "NameError: name glob is not defined"

/-- A row of the merged frame as seen by the VIN search (only the columns
the mask reads matter; `vinnumber` may be `NaN`). -/
structure VinRow where
  vinnumber : Option String
  customerid : String
  year : Option String
  tstamp : Option String
deriving DecidableEq, Repr

/-- The match step of `show_vin_search` (app.py lines 636-644): no search on
an all-whitespace query (`if ... and vin.strip():`); otherwise
`vin_query = vin.strip().upper()` and the mask keeps the rows with
`df["VINNUMBER"].fillna("").str.upper() == vin_query`. -/
def vinFilter (df : List VinRow) (vin : String) : List VinRow :=
  if pyStrip vin = "" then []
  else
    let q := pyUpper (pyStrip vin)
    df.filter (fun r => pyUpper ((r.vinnumber).getD "") = q)

/-! ### Lemmas: ASCII case maps and stripping -/

theorem upChar_lowChar (c : Char) : upChar (lowChar c) = upChar c := by
  by_cases h : 65 ≤ c.toNat ∧ c.toNat ≤ 90
  · obtain ⟨n, hn, rfl⟩ : ∃ n, (65 ≤ n ∧ n ≤ 90) ∧ c = Char.ofNat n :=
      ⟨c.toNat, h, (Char.ofNat_toNat c).symm⟩
    obtain ⟨h1, h2⟩ := hn
    interval_cases n <;> decide
  · simp only [lowChar, if_neg h]

theorem upChar_upChar (c : Char) : upChar (upChar c) = upChar c := by
  by_cases h : 97 ≤ c.toNat ∧ c.toNat ≤ 122
  · obtain ⟨n, hn, rfl⟩ : ∃ n, (97 ≤ n ∧ n ≤ 122) ∧ c = Char.ofNat n :=
      ⟨c.toNat, h, (Char.ofNat_toNat c).symm⟩
    obtain ⟨h1, h2⟩ := hn
    interval_cases n <;> decide
  · have hc : upChar c = c := by simp only [upChar, if_neg h]
    simp only [hc]

theorem isPySpace_lowChar (c : Char) : isPySpace (lowChar c) = isPySpace c := by
  by_cases h : 65 ≤ c.toNat ∧ c.toNat ≤ 90
  · obtain ⟨n, hn, rfl⟩ : ∃ n, (65 ≤ n ∧ n ≤ 90) ∧ c = Char.ofNat n :=
      ⟨c.toNat, h, (Char.ofNat_toNat c).symm⟩
    obtain ⟨h1, h2⟩ := hn
    interval_cases n <;> decide
  · simp only [lowChar, if_neg h]

theorem isPySpace_upChar (c : Char) : isPySpace (upChar c) = isPySpace c := by
  by_cases h : 97 ≤ c.toNat ∧ c.toNat ≤ 122
  · obtain ⟨n, hn, rfl⟩ : ∃ n, (97 ≤ n ∧ n ≤ 122) ∧ c = Char.ofNat n :=
      ⟨c.toNat, h, (Char.ofNat_toNat c).symm⟩
    obtain ⟨h1, h2⟩ := hn
    interval_cases n <;> decide
  · simp only [upChar, if_neg h]

theorem dropWhile_map_inv {f : Char → Char} (hf : ∀ c, isPySpace (f c) = isPySpace c)
    (l : List Char) : (l.map f).dropWhile isPySpace = (l.dropWhile isPySpace).map f := by
  rw [List.dropWhile_map]
  have : isPySpace ∘ f = isPySpace := funext hf
  rw [this]

theorem pyStripList_map {f : Char → Char} (hf : ∀ c, isPySpace (f c) = isPySpace c)
    (l : List Char) : pyStripList (l.map f) = (pyStripList l).map f := by
  unfold pyStripList
  rw [dropWhile_map_inv hf, ← List.map_reverse, dropWhile_map_inv hf, ← List.map_reverse]

theorem pyStrip_pyUpper (s : String) : pyStrip (pyUpper s) = pyUpper (pyStrip s) := by
  simp only [pyStrip, pyUpper, pyStripList_map isPySpace_upChar]

theorem pyStrip_pyLower (s : String) : pyStrip (pyLower s) = pyLower (pyStrip s) := by
  simp only [pyStrip, pyLower, pyStripList_map isPySpace_lowChar]

theorem pyUpper_pyLower (s : String) : pyUpper (pyLower s) = pyUpper s := by
  simp only [pyUpper, pyLower, List.map_map]
  have : upChar ∘ lowChar = upChar := funext upChar_lowChar
  rw [this]

theorem pyUpper_pyUpper (s : String) : pyUpper (pyUpper s) = pyUpper s := by
  simp only [pyUpper, List.map_map]
  have : upChar ∘ upChar = upChar := funext upChar_upChar
  rw [this]

theorem pyUpper_eq_empty_iff (s : String) : pyUpper s = "" ↔ s = "" := by
  obtain ⟨d⟩ := s
  constructor
  · intro h
    have h2 : d.map upChar = [] := congrArg String.data h
    have h3 : d = [] := List.map_eq_nil_iff.mp h2
    subst h3
    rfl
  · intro h
    rw [h]
    rfl

/-! ### Lemmas: counters, deduplication and the `calculate_stats` loop -/

theorem sum_bump {α : Type} [DecidableEq α] (m : List (α × Nat)) (k : α) :
    ((bump m k).map (fun p => p.2)).sum = (m.map (fun p => p.2)).sum + 1 := by
  induction m with
  | nil => simp [bump]
  | cons a rest ih =>
    obtain ⟨a1, a2⟩ := a
    by_cases h : a1 = k
    · simp [bump, h]
      omega
    · simp [bump, h, ih]
      omega

theorem keys_bump {α : Type} [DecidableEq α] (m : List (α × Nat)) (k : α) :
    (bump m k).map (fun p => p.1) =
      if k ∈ m.map (fun p => p.1) then m.map (fun p => p.1)
      else m.map (fun p => p.1) ++ [k] := by
  induction m with
  | nil => simp [bump]
  | cons a rest ih =>
    obtain ⟨a1, a2⟩ := a
    by_cases h : a1 = k
    · simp [bump, h]
    · have hne : ¬(k = a1) := fun hh => h hh.symm
      by_cases hk : k ∈ rest.map (fun p => p.1)
      · simp [bump, h, ih, hk, hne]
      · simp [bump, h, ih, hk, hne]

theorem counts_pos_bump {α : Type} [DecidableEq α] (m : List (α × Nat)) (k : α)
    (h : ∀ p ∈ m, 1 ≤ p.2) : ∀ p ∈ bump m k, 1 ≤ p.2 := by
  induction m with
  | nil =>
    intro p hp
    simp [bump] at hp
    simp [hp]
  | cons a rest ih =>
    obtain ⟨a1, a2⟩ := a
    intro p hp
    by_cases he : a1 = k
    · simp [bump, he] at hp
      rcases hp with hp | hp
      · simp [hp]
      · exact h p (by simp [hp])
    · simp [bump, he] at hp
      rcases hp with hp | hp
      · exact h p (by simp [hp])
      · exact ih (fun q hq => h q (by simp [hq])) p hp

theorem fst_mem_bump {α : Type} [DecidableEq α] (m : List (α × Nat)) (k : α)
    (p : α × Nat) (hp : p ∈ bump m k) : p.1 = k ∨ ∃ q ∈ m, q.1 = p.1 := by
  induction m with
  | nil =>
    simp [bump] at hp
    simp [hp]
  | cons a rest ih =>
    obtain ⟨a1, a2⟩ := a
    by_cases he : a1 = k
    · simp [bump, he] at hp
      rcases hp with hp | hp
      · left
        simp [hp]
      · right
        exact ⟨p, by simp [hp], rfl⟩
    · simp [bump, he] at hp
      rcases hp with hp | hp
      · right
        exact ⟨(a1, a2), by simp, by simp [hp]⟩
      · rcases ih hp with hh | ⟨q, hq, hq2⟩
        · exact Or.inl hh
        · exact Or.inr ⟨q, by simp [hq], hq2⟩

theorem perDayOf_append_one (l : List QueryRecord) (x : QueryRecord) :
    perDayOf (l ++ [x]) = bump (perDayOf l) (recDate x) := by
  simp only [perDayOf, List.foldl_append, List.foldl_cons, List.foldl_nil]

theorem vinCountOf_append_one (l : List QueryRecord) (x : QueryRecord) :
    vinCountOf (l ++ [x]) = bumpVin (vinCountOf l) x := by
  simp only [vinCountOf, List.foldl_append, List.foldl_cons, List.foldl_nil]

theorem firstOccKeys_append_one (l : List QueryRecord) (x : QueryRecord) :
    firstOccKeys (l ++ [x]) =
      (match x.query_vin with
        | some v => if v ≠ "" ∧ v ∉ firstOccKeys l then firstOccKeys l ++ [v] else firstOccKeys l
        | none => firstOccKeys l) := by
  simp only [firstOccKeys, List.foldl_append, List.foldl_cons, List.foldl_nil]

theorem dedupByKey_append_one (l : List QueryRecord) (x : QueryRecord) :
    dedupByKey (l ++ [x]) =
      if (dedupByKey l).any (fun q => recKey q = recKey x) then dedupByKey l
      else dedupByKey l ++ [x] := by
  simp only [dedupByKey, List.foldl_append, List.foldl_cons, List.foldl_nil]

theorem survivors_append_one (data : List QueryRecord) (x : QueryRecord) (org : String)
    (dFrom dTo : PyDate) :
    survivors (data ++ [x]) org dFrom dTo =
      survivors data org dFrom dTo ++ (if survives org dFrom dTo x then [x] else []) := by
  simp only [survivors, List.filter_append, List.filter_cons, List.filter_nil]

theorem statsStep_skip (org : String) (dFrom dTo : PyDate) (st : StState)
    (item : QueryRecord) (h : survives org dFrom dTo item = false) :
    statsStep org dFrom dTo st item = st := by
  by_cases h1 : org ≠ "" ∧ item.organization_name ≠ some org
  · simp [statsStep, h1]
  · cases hts : item.time_stamp with
    | none => simp [statsStep, h1, hts]
    | some ts =>
      by_cases h2 : ts = ""
      · simp [statsStep, h1, hts, h2]
      · cases hp : parse_timestamp (some ts) with
        | error e => simp [statsStep, h1, hts, h2, hp]
        | ok dt =>
          have hd : (dle dFrom (dateOf dt) && dle (dateOf dt) dTo) = false := by
            simpa [survives, h1, hts, h2, hp] using h
          simp [statsStep, h1, hts, h2, hp, hd]

theorem statsStep_surv (org : String) (dFrom dTo : PyDate) (st : StState)
    (item : QueryRecord) (h : survives org dFrom dTo item = true) :
    statsStep org dFrom dTo st item =
      if st.uniq.any (fun p => p.1 = recKey item) then st
      else
        { uniq := st.uniq ++ [(recKey item, toRow item)]
          perDay := bump st.perDay (recDate item)
          vins := bumpVin st.vins item } := by
  by_cases h1 : org ≠ "" ∧ item.organization_name ≠ some org
  · simp [survives, h1] at h
  · cases hts : item.time_stamp with
    | none => simp [survives, h1, hts] at h
    | some ts =>
      by_cases h2 : ts = ""
      · simp [survives, h1, hts, h2] at h
      · cases hp : parse_timestamp (some ts) with
        | error e => simp [survives, h1, hts, h2, hp] at h
        | ok dt =>
          have hd : (dle dFrom (dateOf dt) && dle (dateOf dt) dTo) = true := by
            simpa [survives, h1, hts, h2, hp] using h
          have hdate : recDate item = dateOf dt := by
            simp [recDate, hts, hp]
          have hfun : (fun p : (Option String × Option String) × ExportRow =>
              decide (p.1 = (item.query_vin, item.time_stamp))) =
              (fun p => decide (p.1 = (item.query_vin, some ts))) := by
            funext p
            rw [hts]
          simp [statsStep, recKey, h1, hts, h2, hp, hd, hdate]
          rw [hfun]

theorem foldl_statsStep_eq (org : String) (dFrom dTo : PyDate) (data : List QueryRecord) :
    data.foldl (statsStep org dFrom dTo) ⟨[], [], []⟩ =
      { uniq := (dedupByKey (survivors data org dFrom dTo)).map (fun r => (recKey r, toRow r))
        perDay := perDayOf (dedupByKey (survivors data org dFrom dTo))
        vins := vinCountOf (dedupByKey (survivors data org dFrom dTo)) } := by
  induction data using List.reverseRecOn with
  | nil => rfl
  | append_singleton l x ih =>
    rw [List.foldl_append, List.foldl_cons, List.foldl_nil, ih]
    by_cases hs : survives org dFrom dTo x = true
    · rw [statsStep_surv org dFrom dTo _ x hs]
      have hsurv : survivors (l ++ [x]) org dFrom dTo = survivors l org dFrom dTo ++ [x] := by
        simp [survivors_append_one, hs]
      rw [hsurv, dedupByKey_append_one]
      have hany : ((dedupByKey (survivors l org dFrom dTo)).map
            (fun r => (recKey r, toRow r))).any (fun p => p.1 = recKey x) =
          (dedupByKey (survivors l org dFrom dTo)).any (fun q => recKey q = recKey x) := by
        induction dedupByKey (survivors l org dFrom dTo) with
        | nil => rfl
        | cons a as iha => simp [List.any_cons, iha]
      by_cases hmem : (dedupByKey (survivors l org dFrom dTo)).any
          (fun q => recKey q = recKey x) = true
      · simp [hany, hmem]
      · have hmem2 : (dedupByKey (survivors l org dFrom dTo)).any
            (fun q => recKey q = recKey x) = false := by
          revert hmem
          cases (dedupByKey (survivors l org dFrom dTo)).any (fun q => recKey q = recKey x) <;>
            simp
        simp [hany, hmem2, perDayOf_append_one, vinCountOf_append_one]
    · have hs0 : survives org dFrom dTo x = false := by
        revert hs
        cases survives org dFrom dTo x <;> simp
      rw [statsStep_skip org dFrom dTo _ x hs0]
      have hsurv : survivors (l ++ [x]) org dFrom dTo = survivors l org dFrom dTo := by
        simp [survivors_append_one, hs0]
      rw [hsurv]

theorem mem_dedupByKey_subset (l : List QueryRecord) (r : QueryRecord)
    (h : r ∈ dedupByKey l) : r ∈ l := by
  induction l using List.reverseRecOn with
  | nil =>
    simp [dedupByKey] at h
  | append_singleton l x ih =>
    rw [dedupByKey_append_one] at h
    by_cases hm : ((dedupByKey l).any (fun q => recKey q = recKey x)) = true
    · rw [if_pos hm] at h
      exact List.mem_append_left _ (ih h)
    · rw [if_neg hm] at h
      rcases List.mem_append.mp h with h | h
      · exact List.mem_append_left _ (ih h)
      · exact List.mem_append_right _ h

theorem key_mem_dedupByKey (l : List QueryRecord) (r : QueryRecord) (h : r ∈ l) :
    recKey r ∈ (dedupByKey l).map recKey := by
  induction l using List.reverseRecOn with
  | nil => simp at h
  | append_singleton l x ih =>
    rw [dedupByKey_append_one]
    rcases List.mem_append.mp h with h | h
    · by_cases hm : ((dedupByKey l).any (fun q => recKey q = recKey x)) = true
      · rw [if_pos hm]
        exact ih h
      · rw [if_neg hm, List.map_append]
        exact List.mem_append_left _ (ih h)
    · have hx : r = x := by simpa using h
      subst hx
      by_cases hm : ((dedupByKey l).any (fun q => recKey q = recKey r)) = true
      · rw [if_pos hm]
        rcases List.any_eq_true.mp hm with ⟨q, hq, hq2⟩
        have hqq : recKey q = recKey r := by simpa using hq2
        rw [← hqq]
        exact List.mem_map_of_mem recKey hq
      · rw [if_neg hm, List.map_append]
        exact List.mem_append_right _ (by simp)

theorem nodup_keys_dedupByKey (l : List QueryRecord) :
    ((dedupByKey l).map recKey).Nodup := by
  induction l using List.reverseRecOn with
  | nil => simp [dedupByKey]
  | append_singleton l x ih =>
    rw [dedupByKey_append_one]
    by_cases hm : ((dedupByKey l).any (fun q => recKey q = recKey x)) = true
    · rw [if_pos hm]
      exact ih
    · rw [if_neg hm, List.map_append]
      have hnot : recKey x ∉ (dedupByKey l).map recKey := by
        intro hmem
        apply hm
        rcases List.mem_map.mp hmem with ⟨q, hq, hq2⟩
        exact List.any_eq_true.mpr ⟨q, hq, by simp [hq2]⟩
      simp [List.nodup_append, ih, hnot]

theorem dedup_first_kept (l : List QueryRecord) (k : Option String × Option String)
    (r : QueryRecord) (h : (l.filter (fun q => recKey q = k)).head? = some r) :
    r ∈ dedupByKey l := by
  induction l using List.reverseRecOn with
  | nil => simp at h
  | append_singleton l x ih =>
    rw [List.filter_append, List.head?_append] at h
    cases hh : (l.filter (fun q => recKey q = k)).head? with
    | some r0 =>
      rw [hh] at h
      have hr0 : r0 = r := by simpa using h
      subst hr0
      have hmem := ih hh
      rw [dedupByKey_append_one]
      by_cases hm : ((dedupByKey l).any (fun q => recKey q = recKey x)) = true
      · rw [if_pos hm]
        exact hmem
      · rw [if_neg hm]
        exact List.mem_append_left _ hmem
    | none =>
      rw [hh] at h
      simp only [Option.none_or] at h
      have hfl : l.filter (fun q => recKey q = k) = [] := List.head?_eq_none_iff.mp hh
      by_cases hx : recKey x = k
      · have hxr : x = r := by simpa [List.filter_cons, hx] using h
        subst hxr
        rw [dedupByKey_append_one]
        have hm : ((dedupByKey l).any (fun q => recKey q = recKey x)) = false := by
          cases hb : (dedupByKey l).any (fun q => recKey q = recKey x) with
          | false => rfl
          | true =>
            exfalso
            rcases List.any_eq_true.mp hb with ⟨q, hq, hq2⟩
            have hqk : recKey q = k := by
              have hqx : recKey q = recKey x := by simpa using hq2
              rw [hqx, hx]
            have hql : q ∈ l := mem_dedupByKey_subset l q hq
            have hnp := List.filter_eq_nil_iff.mp hfl q hql
            exact hnp (by simp [hqk])
        rw [hm]
        simp
      · simp [List.filter_cons, hx] at h

theorem bumpVin_none (m : List (String × Nat)) (r : QueryRecord)
    (hv : r.query_vin = none) : bumpVin m r = m := by
  simp [bumpVin, hv]

theorem bumpVin_some (m : List (String × Nat)) (r : QueryRecord) (v : String)
    (hv : r.query_vin = some v) : bumpVin m r = if v ≠ "" then bump m v else m := by
  simp [bumpVin, hv]

theorem firstOccKeys_append_none (l : List QueryRecord) (x : QueryRecord)
    (hv : x.query_vin = none) : firstOccKeys (l ++ [x]) = firstOccKeys l := by
  simp [firstOccKeys, List.foldl_append, hv]

theorem firstOccKeys_append_some (l : List QueryRecord) (x : QueryRecord) (v : String)
    (hv : x.query_vin = some v) :
    firstOccKeys (l ++ [x]) =
      if v ≠ "" ∧ v ∉ firstOccKeys l then firstOccKeys l ++ [v] else firstOccKeys l := by
  simp [firstOccKeys, List.foldl_append, hv]

theorem sum_perDayOf (l : List QueryRecord) :
    ((perDayOf l).map (fun p => p.2)).sum = l.length := by
  induction l using List.reverseRecOn with
  | nil => rfl
  | append_singleton l x ih =>
    rw [perDayOf_append_one, sum_bump, ih]
    simp

theorem vinCountOf_entries (l : List QueryRecord) :
    ∀ p ∈ vinCountOf l, 1 ≤ p.2 ∧ p.1 ≠ "" ∧ ∃ r ∈ l, r.query_vin = some p.1 := by
  induction l using List.reverseRecOn with
  | nil => simp [vinCountOf]
  | append_singleton l x ih =>
    rw [vinCountOf_append_one]
    intro p hp
    cases hv : x.query_vin with
    | none =>
      rw [bumpVin_none _ _ hv] at hp
      obtain ⟨h1, h2, r, hr, hr2⟩ := ih p hp
      exact ⟨h1, h2, r, List.mem_append_left _ hr, hr2⟩
    | some v =>
      rw [bumpVin_some _ _ _ hv] at hp
      by_cases hv2 : v ≠ ""
      · rw [if_pos hv2] at hp
        have hpos : 1 ≤ p.2 := counts_pos_bump _ v (fun q hq => (ih q hq).1) p hp
        rcases fst_mem_bump _ v p hp with h1 | ⟨q, hq, hq2⟩
        · refine ⟨hpos, ?_, x, by simp, ?_⟩
          · rw [h1]
            exact hv2
          · rw [hv, h1]
        · obtain ⟨_, hne, r, hr, hr2⟩ := ih q hq
          refine ⟨hpos, hq2 ▸ hne, r, List.mem_append_left _ hr, ?_⟩
          rw [hr2, hq2]
      · rw [if_neg hv2] at hp
        obtain ⟨h1, h2, r, hr, hr2⟩ := ih p hp
        exact ⟨h1, h2, r, List.mem_append_left _ hr, hr2⟩

theorem mem_insertDesc (x y : String × Nat) (l : List (String × Nat)) :
    y ∈ insertDesc x l ↔ y = x ∨ y ∈ l := by
  induction l with
  | nil => simp [insertDesc]
  | cons a as ih =>
    by_cases h : a.2 ≤ x.2
    · simp [insertDesc, h]
    · simp [insertDesc, h, ih]
      tauto

theorem mem_isortDesc (y : String × Nat) (l : List (String × Nat)) :
    y ∈ isortDesc l ↔ y ∈ l := by
  induction l with
  | nil => simp [isortDesc]
  | cons a as ih => simp [isortDesc, mem_insertDesc, ih]

theorem sorted_insertDesc (x : String × Nat) (l : List (String × Nat))
    (h : List.Pairwise (fun a b : String × Nat => b.2 ≤ a.2) l) :
    List.Pairwise (fun a b : String × Nat => b.2 ≤ a.2) (insertDesc x l) := by
  induction l with
  | nil => simp [insertDesc]
  | cons a as ih =>
    rcases List.pairwise_cons.mp h with ⟨ha, has⟩
    by_cases hc : a.2 ≤ x.2
    · simp only [insertDesc, if_pos hc]
      refine List.pairwise_cons.mpr ⟨fun b hb => ?_, h⟩
      rcases List.mem_cons.mp hb with rfl | hb
      · exact hc
      · exact le_trans (ha b hb) hc
    · simp only [insertDesc, if_neg hc]
      refine List.pairwise_cons.mpr ⟨fun b hb => ?_, ih has⟩
      rcases (mem_insertDesc x b as).mp hb with rfl | hb
      · omega
      · exact ha b hb

theorem sorted_isortDesc (l : List (String × Nat)) :
    List.Pairwise (fun a b : String × Nat => b.2 ≤ a.2) (isortDesc l) := by
  induction l with
  | nil => simp [isortDesc]
  | cons a as ih => exact sorted_insertDesc a _ ih

theorem filter_insertDesc (x : String × Nat) (l : List (String × Nat)) (c : Nat) :
    (insertDesc x l).filter (fun p => p.2 = c) =
      if x.2 = c then x :: l.filter (fun p => p.2 = c) else l.filter (fun p => p.2 = c) := by
  induction l with
  | nil => simp [insertDesc, List.filter_cons]
  | cons a as ih =>
    by_cases hc : a.2 ≤ x.2
    · simp only [insertDesc, if_pos hc]
      by_cases h1 : x.2 = c <;> simp [List.filter_cons, h1]
    · simp only [insertDesc, if_neg hc, List.filter_cons, ih]
      by_cases h1 : x.2 = c
      · have h2 : ¬(a.2 = c) := by omega
        simp [h1, h2]
      · by_cases h2 : a.2 = c <;> simp [h1, h2]

theorem filter_isortDesc (l : List (String × Nat)) (c : Nat) :
    (isortDesc l).filter (fun p => p.2 = c) = l.filter (fun p => p.2 = c) := by
  induction l with
  | nil => rfl
  | cons a as ih =>
    simp only [isortDesc, filter_insertDesc, ih, List.filter_cons]
    by_cases h : a.2 = c <;> simp [h]

theorem keys_vinCountOf (l : List QueryRecord) :
    (vinCountOf l).map (fun p => p.1) = firstOccKeys l := by
  induction l using List.reverseRecOn with
  | nil => rfl
  | append_singleton l x ih =>
    rw [vinCountOf_append_one]
    cases hv : x.query_vin with
    | none => rw [bumpVin_none _ _ hv, firstOccKeys_append_none l x hv, ih]
    | some v =>
      rw [bumpVin_some _ _ _ hv, firstOccKeys_append_some l x v hv]
      by_cases hv2 : v ≠ ""
      · rw [if_pos hv2, keys_bump, ih]
        by_cases hmem : v ∈ firstOccKeys l
        · rw [if_pos hmem]
          have hno : ¬(v ≠ "" ∧ v ∉ firstOccKeys l) := by tauto
          rw [if_neg hno]
        · rw [if_neg hmem, if_pos ⟨hv2, hmem⟩]
      · rw [if_neg hv2, ih]
        have hno : ¬(v ≠ "" ∧ v ∉ firstOccKeys l) := by tauto
        rw [if_neg hno]

theorem prefixFilterMono {α : Type} (p : α → Bool) (l m : List α) (h : l <+: m) :
    l.filter p <+: m.filter p := by
  rcases h with ⟨t, rfl⟩
  rw [List.filter_append]
  exact ⟨t.filter p, rfl⟩

/-! ### Lemmas: the left join -/

theorem mergeLeft_cons (s : StatRow) (stats : List StatRow) (orgs : List OrgRow) :
    mergeLeft (s :: stats) orgs =
      (if (matchesOf orgs s).isEmpty then [(⟨s, none⟩ : MergedRow)]
        else (matchesOf orgs s).map (fun o => ⟨s, some o⟩)) ++ mergeLeft stats orgs := by
  simp [mergeLeft, List.flatMap_cons]

theorem head_block_length (s : StatRow) (orgs : List OrgRow) :
    (if (matchesOf orgs s).isEmpty then [(⟨s, none⟩ : MergedRow)]
      else (matchesOf orgs s).map (fun o => ⟨s, some o⟩)).length
    = max 1 (matchesOf orgs s).length := by
  by_cases he : (matchesOf orgs s).isEmpty = true
  · have h0 : matchesOf orgs s = [] := List.isEmpty_iff.mp he
    simp [he, h0]
  · cases hmm : matchesOf orgs s with
    | nil =>
      rw [hmm] at he
      simp at he
    | cons a as =>
      simp [he, hmm]

theorem length_mergeLeft_ge (stats : List StatRow) (orgs : List OrgRow) :
    stats.length ≤ (mergeLeft stats orgs).length := by
  induction stats with
  | nil => simp [mergeLeft]
  | cons s ss ih =>
    rw [mergeLeft_cons, List.length_append, head_block_length, List.length_cons]
    omega

theorem length_mergeLeft_eq_iff (stats : List StatRow) (orgs : List OrgRow) :
    (mergeLeft stats orgs).length = stats.length ↔
      ∀ s ∈ stats, (matchesOf orgs s).length ≤ 1 := by
  induction stats with
  | nil => simp [mergeLeft]
  | cons s ss ih =>
    rw [mergeLeft_cons, List.length_append, head_block_length, List.length_cons]
    constructor
    · intro h
      have htail := length_mergeLeft_ge ss orgs
      have hk : max 1 (matchesOf orgs s).length = 1 ∧ (mergeLeft ss orgs).length = ss.length := by
        omega
      intro r hr
      rcases List.mem_cons.mp hr with rfl | hr
      · omega
      · exact (ih.mp hk.2) r hr
    · intro h
      have hs := h s (by simp)
      have hss := ih.mpr (fun r hr => h r (by simp [hr]))
      omega

theorem stat_mem_mergeLeft (stats : List StatRow) (orgs : List OrgRow) (s : StatRow)
    (hs : s ∈ stats) : ∃ m ∈ mergeLeft stats orgs, m.stat = s := by
  by_cases he : (matchesOf orgs s).isEmpty = true
  · exact ⟨⟨s, none⟩, List.mem_flatMap.mpr ⟨s, hs, by simp [he]⟩, rfl⟩
  · cases hmm : matchesOf orgs s with
    | nil =>
      rw [hmm] at he
      simp at he
    | cons a as =>
      refine ⟨⟨s, some a⟩, List.mem_flatMap.mpr ⟨s, hs, ?_⟩, rfl⟩
      rw [if_neg he, hmm]
      simp

theorem mem_mergeLeft_shape (stats : List StatRow) (orgs : List OrgRow) (m : MergedRow)
    (hm : m ∈ mergeLeft stats orgs) :
    m.stat ∈ stats ∧ (m.org = none ↔ matchesOf orgs m.stat = []) ∧
      ∀ o, m.org = some o → o ∈ matchesOf orgs m.stat := by
  rcases List.mem_flatMap.mp hm with ⟨s, hs, hmem⟩
  by_cases he : (matchesOf orgs s).isEmpty = true
  · have h0 : matchesOf orgs s = [] := List.isEmpty_iff.mp he
    rw [if_pos he] at hmem
    have hms : m = ⟨s, none⟩ := by simpa using hmem
    subst hms
    refine ⟨hs, by simp [h0], ?_⟩
    intro o ho
    simp at ho
  · rw [if_neg he] at hmem
    rcases List.mem_map.mp hmem with ⟨o, ho, rfl⟩
    refine ⟨hs, ?_, ?_⟩
    · constructor
      · intro hcc
        simp at hcc
      · intro hcc
        rw [hcc] at ho
        simp at ho
    · intro o2 ho2
      have ho22 : o = o2 := by simpa using ho2
      subst ho22
      exact ho

theorem countP_block (s r : StatRow) (orgs : List OrgRow) :
    (if (matchesOf orgs r).isEmpty then [(⟨r, none⟩ : MergedRow)]
      else (matchesOf orgs r).map (fun o => ⟨r, some o⟩)).countP (fun m => m.stat = s)
    = if r = s then max 1 (matchesOf orgs r).length else 0 := by
  by_cases he : (matchesOf orgs r).isEmpty = true
  · have h0 : matchesOf orgs r = [] := List.isEmpty_iff.mp he
    by_cases hr : r = s
    · subst hr
      simp [h0, List.countP_cons]
    · simp [he, h0, hr, List.countP_cons]
  · rw [if_neg he, List.countP_map]
    by_cases hr : r = s
    · subst hr
      have hcomp : ((fun m : MergedRow => decide (m.stat = r)) ∘
          (fun o => (⟨r, some o⟩ : MergedRow))) = fun o => true := by
        funext o
        simp
      rw [hcomp]
      cases hmm : matchesOf orgs r with
      | nil =>
        rw [hmm] at he
        simp at he
      | cons a as =>
        simp [hmm]
    · have hcomp : ((fun m : MergedRow => decide (m.stat = s)) ∘
          (fun o => (⟨r, some o⟩ : MergedRow))) = fun o => false := by
        funext o
        simp [hr]
      rw [hcomp]
      simp [hr]

theorem count_mergeLeft (stats : List StatRow) (orgs : List OrgRow) (s : StatRow) :
    (mergeLeft stats orgs).countP (fun m => m.stat = s) =
      (stats.countP (fun r => r = s)) * max 1 (matchesOf orgs s).length := by
  induction stats with
  | nil => simp [mergeLeft]
  | cons r rs ih =>
    rw [mergeLeft_cons, List.countP_append, ih, List.countP_cons, countP_block]
    by_cases hr : r = s
    · subst hr
      simp
      ring
    · simp [hr]

/-! ### Lemmas: assembling `calculate_stats` -/

theorem rowKey_toRow (r : QueryRecord) : rowKey (toRow r) = recKey r := rfl

theorem calculate_stats_eq (data : List QueryRecord) (org : String) (dFrom dTo : PyDate) :
    calculate_stats data org dFrom dTo =
      ((dedupByKey (survivors data org dFrom dTo)).map toRow,
        perDayOf (dedupByKey (survivors data org dFrom dTo)),
        (isortDesc (vinCountOf (dedupByKey (survivors data org dFrom dTo)))).take 5) := by
  unfold calculate_stats
  rw [foldl_statsStep_eq]
  simp [List.map_map]

theorem calculate_stats_discard (data1 data2 : List QueryRecord) (item : QueryRecord)
    (org : String) (dFrom dTo : PyDate) (h : survives org dFrom dTo item = false) :
    calculate_stats (data1 ++ item :: data2) org dFrom dTo =
      calculate_stats (data1 ++ data2) org dFrom dTo := by
  unfold calculate_stats
  rw [List.foldl_append, List.foldl_cons, statsStep_skip org dFrom dTo _ item h,
    ← List.foldl_append]

theorem pyLower_eq_empty_iff (s : String) : pyLower s = "" ↔ s = "" := by
  obtain ⟨d⟩ := s
  constructor
  · intro h
    have h2 : d.map lowChar = [] := congrArg String.data h
    have h3 : d = [] := List.map_eq_nil_iff.mp h2
    subst h3
    rfl
  · intro h
    rw [h]
    rfl

theorem dle_refl (a : PyDate) : dle a a = true := by
  simp [dle]

/-! ### The claims -/

/-- C1: every call of `load_vin_data` fails.  The function body references
`glob.glob` but the module import block never binds the name `glob`, so the
call raises `NameError` regardless of the input file set, and the merged
dataset is never produced. -/
theorem c1_load_vin_data_always_fails (files : List StatFile) (orgFile : Option OrgFileData) :
    load_vin_data files orgFile = Except.error "NameError: name glob is not defined" ∧
      "glob" ∉ moduleImportedNames := by
  constructor
  · unfold load_vin_data
    rw [if_neg (by decide)]
  · decide

/-- C2 counterexample: the claim says a missing customer identifier
normalizes to `"000000000"`; in the code the missing cell is `NaN`, which
`astype(str)` renders as `"nan"`, so the normalized value is `"000000nan"`,
not the all-zero code. -/
theorem c2_counterexample : normalizeCustomerId none ≠ "000000000" := by decide

/-- C2 (amended): a missing customer-identifier value is stringified by
`astype(str)` to `"nan"` before padding, so the normalized result for every
missing value is the 9-character code `"000000nan"`. -/
theorem c2_missing_value_pads_nan : normalizeCustomerId none = "000000nan" := by decide

/-- C9: `zfill 9` (the normalization applied to the customer identifier and
the organization code) left-pads strings shorter than 9 characters with
`'0'` to exactly 9 characters, returns strings of 9 or more characters
unchanged, and never truncates: the original string is always a suffix of
the result and the result length is `max 9 (length)`. -/
theorem c9_zfill_pads_never_truncates (s : String) :
    (s.length < 9 → zfill 9 s = ⟨List.replicate (9 - s.length) '0' ++ s.data⟩) ∧
    (s.length < 9 → (zfill 9 s).length = 9) ∧
    (9 ≤ s.length → zfill 9 s = s) ∧
    (zfill 9 s).length = max 9 s.length ∧
    s.data <:+ (zfill 9 s).data := by
  refine ⟨?_, ?_, ?_, ?_, ?_⟩
  · intro h
    simp [zfill, h]
  · intro h
    simp only [zfill, if_pos h, String.length_mk, List.length_append, List.length_replicate]
    have hl : s.length = s.data.length := rfl
    omega
  · intro h
    simp [zfill, Nat.not_lt.mpr h]
  · by_cases h : s.length < 9
    · simp only [zfill, if_pos h, String.length_mk, List.length_append, List.length_replicate]
      have hl : s.length = s.data.length := rfl
      omega
    · simp only [zfill, if_neg h]
      omega
  · by_cases h : s.length < 9
    · simp only [zfill, if_pos h]
      exact ⟨List.replicate (9 - s.length) '0', rfl⟩
    · simp only [zfill, if_neg h]
      exact List.suffix_rfl

theorem c9_witness : ("123" : String).length < 9 ∧ zfill 9 "123" = "000000123" :=
  ⟨by decide, ((c9_zfill_pads_never_truncates "123").1 (by decide)).trans (by decide)⟩

/-- C10: in `calculate_stats`, the sum over all days of the per-day counts
equals the number of export rows: each unique surviving record is counted
exactly once toward exactly one calendar day. -/
theorem c10_per_day_total_equals_export_rows (data : List QueryRecord) (org : String)
    (dFrom dTo : PyDate) :
    (((calculate_stats data org dFrom dTo).2.1).map (fun p => p.2)).sum =
      (calculate_stats data org dFrom dTo).1.length := by
  rw [calculate_stats_eq]
  simp only []
  rw [sum_perDayOf, List.length_map]

/-- C7: `parse_timestamp` tries the offset format `%Y-%m-%dT%H:%M:%S%z`,
then the naive format `%Y-%m-%dT%H:%M:%S`, then — when the stripped string
ends in a literal `Z` — the naive format on the string without its final
character, returning the first success; it raises exactly when all three
attempts fail. -/
theorem c7_parse_timestamp_three_formats (ts : Option String) :
    (∀ dt, strptimeOffsetFmt (pyStrip (ts.getD "")) = some dt →
      parse_timestamp ts = Except.ok dt) ∧
    (∀ dt, strptimeOffsetFmt (pyStrip (ts.getD "")) = none →
      strptimeNaive (pyStrip (ts.getD "")) = some dt →
      parse_timestamp ts = Except.ok dt) ∧
    (∀ dt, strptimeOffsetFmt (pyStrip (ts.getD "")) = none →
      strptimeNaive (pyStrip (ts.getD "")) = none →
      endsWithZ (pyStrip (ts.getD "")) = true →
      strptimeNaive (dropLastStr (pyStrip (ts.getD ""))) = some dt →
      parse_timestamp ts = Except.ok dt) ∧
    (parse_timestamp ts =
        Except.error ("Ne mogu parsirati time_stamp: " ++ pyStrip (ts.getD "")) ↔
      (strptimeOffsetFmt (pyStrip (ts.getD "")) = none ∧
        strptimeNaive (pyStrip (ts.getD "")) = none ∧
        (endsWithZ (pyStrip (ts.getD "")) = true →
          strptimeNaive (dropLastStr (pyStrip (ts.getD ""))) = none))) := by
  refine ⟨?_, ?_, ?_, ?_⟩
  · intro dt h
    simp [parse_timestamp, h]
  · intro dt h1 h2
    simp [parse_timestamp, h1, h2]
  · intro dt h1 h2 h3 h4
    simp [parse_timestamp, h1, h2, h3, h4]
  · constructor
    · intro he
      cases h1 : strptimeOffsetFmt (pyStrip (ts.getD "")) with
      | some dt => simp [parse_timestamp, h1] at he
      | none =>
        cases h2 : strptimeNaive (pyStrip (ts.getD "")) with
        | some dt => simp [parse_timestamp, h1, h2] at he
        | none =>
          refine ⟨rfl, rfl, ?_⟩
          intro hz
          cases h4 : strptimeNaive (dropLastStr (pyStrip (ts.getD ""))) with
          | some dt => simp [parse_timestamp, h1, h2, hz, h4] at he
          | none => rfl
    · rintro ⟨h1, h2, h3⟩
      by_cases hz : endsWithZ (pyStrip (ts.getD "")) = true
      · simp [parse_timestamp, h1, h2, hz, h3 hz]
      · have hz2 : endsWithZ (pyStrip (ts.getD "")) = false := by
          revert hz
          cases endsWithZ (pyStrip (ts.getD "")) <;> simp
        simp [parse_timestamp, h1, h2, hz2]

theorem c7_witness :
    parse_timestamp (some "2025-11-01T07:31:56+0100") =
      Except.ok ⟨2025, 11, 1, 7, 31, 56, some 3600⟩ :=
  (c7_parse_timestamp_three_formats (some "2025-11-01T07:31:56+0100")).1
    ⟨2025, 11, 1, 7, 31, 56, some 3600⟩ rfl

/-- C3: deduplication in `calculate_stats` is keyed on exactly the pair
(queried VIN, raw timestamp string): all three outputs are computed from the
first-occurrence deduplication of the surviving records; export keys are
pairwise distinct; every surviving record's key is represented; the kept row
is built from the first surviving record with that key; and two records with
the same VIN but different timestamp strings always have different keys
(hence are never deduplicated, even if both strings parse to one instant). -/
theorem c3_dedup_key_is_vin_and_raw_timestamp (data : List QueryRecord) (org : String)
    (dFrom dTo : PyDate) :
    ((calculate_stats data org dFrom dTo).1 =
        (dedupByKey (survivors data org dFrom dTo)).map toRow) ∧
    ((calculate_stats data org dFrom dTo).2.1 =
        perDayOf (dedupByKey (survivors data org dFrom dTo))) ∧
    ((calculate_stats data org dFrom dTo).2.2 =
        (isortDesc (vinCountOf (dedupByKey (survivors data org dFrom dTo)))).take 5) ∧
    (((calculate_stats data org dFrom dTo).1.map rowKey).Nodup) ∧
    (∀ r ∈ survivors data org dFrom dTo,
        recKey r ∈ (calculate_stats data org dFrom dTo).1.map rowKey) ∧
    (∀ k r, ((survivors data org dFrom dTo).filter (fun q => recKey q = k)).head? = some r →
        toRow r ∈ (calculate_stats data org dFrom dTo).1) ∧
    (∀ r1 ∈ survivors data org dFrom dTo, ∀ r2 ∈ survivors data org dFrom dTo,
        r1.query_vin = r2.query_vin → r1.time_stamp ≠ r2.time_stamp →
          recKey r1 ≠ recKey r2) := by
  simp only [calculate_stats_eq data org dFrom dTo]
  refine ⟨trivial, trivial, trivial, ?_, ?_, ?_, ?_⟩
  · rw [List.map_map]
    have hcomp : rowKey ∘ toRow = recKey := rfl
    rw [hcomp]
    exact nodup_keys_dedupByKey _
  · intro r hr
    rw [List.map_map]
    have hcomp : rowKey ∘ toRow = recKey := rfl
    rw [hcomp]
    exact key_mem_dedupByKey _ r hr
  · intro k r h
    exact List.mem_map_of_mem toRow (dedup_first_kept _ k r h)
  · intro r1 h1 r2 h2 hv hts hk
    apply hts
    exact congrArg Prod.snd hk

theorem c3_witness :
    toRow (⟨some "u1", none, some "OrgA", some "VIN1", some "2024-01-01T10:00:00", none⟩ :
        QueryRecord) ∈
      (calculate_stats
        [⟨some "u1", none, some "OrgA", some "VIN1", some "2024-01-01T10:00:00", none⟩,
          ⟨some "u2", none, some "OrgA", some "VIN1", some "2024-01-01T10:00:00", none⟩]
        "" ⟨2024, 1, 1⟩ ⟨2024, 12, 31⟩).1 :=
  (c3_dedup_key_is_vin_and_raw_timestamp
      [⟨some "u1", none, some "OrgA", some "VIN1", some "2024-01-01T10:00:00", none⟩,
        ⟨some "u2", none, some "OrgA", some "VIN1", some "2024-01-01T10:00:00", none⟩]
      "" ⟨2024, 1, 1⟩ ⟨2024, 12, 31⟩).2.2.2.2.2.1
    (some "VIN1", some "2024-01-01T10:00:00")
    ⟨some "u1", none, some "OrgA", some "VIN1", some "2024-01-01T10:00:00", none⟩
    (by decide)

/-- C5: the date filter of `calculate_stats` is inclusive at both bounds:
for a record passing the organization filter with a parseable non-empty
timestamp, the record survives exactly when `date_from <= d <= date_to`;
in particular a record dated exactly `date_from` or exactly `date_to` is
kept, and a record outside the range contributes nothing to any output. -/
theorem c5_date_filter_inclusive (org : String) (dFrom dTo : PyDate) (item : QueryRecord)
    (ts : String) (dt : PyDateTime)
    (horg : org = "" ∨ item.organization_name = some org)
    (hts : item.time_stamp = some ts) (hne : ts ≠ "")
    (hp : parse_timestamp (some ts) = Except.ok dt)
    (hrange : dle dFrom dTo = true) :
    (survives org dFrom dTo item = true ↔
      (dle dFrom (dateOf dt) = true ∧ dle (dateOf dt) dTo = true)) ∧
    (dateOf dt = dFrom → survives org dFrom dTo item = true) ∧
    (dateOf dt = dTo → survives org dFrom dTo item = true) ∧
    (∀ data1 data2 : List QueryRecord,
      ¬(dle dFrom (dateOf dt) = true ∧ dle (dateOf dt) dTo = true) →
      calculate_stats (data1 ++ item :: data2) org dFrom dTo =
        calculate_stats (data1 ++ data2) org dFrom dTo) := by
  have h1 : ¬(org ≠ "" ∧ item.organization_name ≠ some org) := by tauto
  have hiff : survives org dFrom dTo item =
      (dle dFrom (dateOf dt) && dle (dateOf dt) dTo) := by
    simp [survives, h1, hts, hne, hp]
  refine ⟨?_, ?_, ?_, ?_⟩
  · rw [hiff, Bool.and_eq_true]
  · intro hd
    rw [hiff, hd, dle_refl dFrom, hrange]
    rfl
  · intro hd
    rw [hiff, hd, dle_refl dTo, hrange]
    rfl
  · intro data1 data2 hout
    apply calculate_stats_discard
    rw [hiff]
    cases hb1 : dle dFrom (dateOf dt) <;> cases hb2 : dle (dateOf dt) dTo <;> simp_all

theorem c5_witness :
    survives "" ⟨2024, 1, 1⟩ ⟨2024, 1, 1⟩
      (⟨none, none, none, some "ABC", some "2024-01-01T10:00:00", none⟩ : QueryRecord) = true :=
  (c5_date_filter_inclusive "" ⟨2024, 1, 1⟩ ⟨2024, 1, 1⟩
      ⟨none, none, none, some "ABC", some "2024-01-01T10:00:00", none⟩
      "2024-01-01T10:00:00" ⟨2024, 1, 1, 10, 0, 0, none⟩
      (Or.inl rfl) rfl (by decide) rfl (by decide)).2.1 (by decide)

/-- C4: the statistics/organization merge is a left outer join on the
normalized identifier: the output is at least as long as the statistics
side, with equality exactly when no identifier has two or more organization
matches; every statistics row appears at least once; organization fields
are null exactly on rows without a match, and a present organization row is
a genuine match; a statistics row matching k organizations appears
`count * max 1 k` times (left-join fan-out). -/
theorem c4_merge_left_outer_join (stats : List (String × RawStatRow)) (orgs : List RawOrgRow) :
    stats.length ≤ (mergeNormalized stats orgs).length ∧
    ((mergeNormalized stats orgs).length = stats.length ↔
      ∀ s ∈ stats.map (fun p => normStatRow p.1 p.2),
        (matchesOf (orgs.map normOrgRow) s).length ≤ 1) ∧
    (∀ s ∈ stats.map (fun p => normStatRow p.1 p.2),
      ∃ m ∈ mergeNormalized stats orgs, m.stat = s) ∧
    (∀ m ∈ mergeNormalized stats orgs,
      m.stat ∈ stats.map (fun p => normStatRow p.1 p.2) ∧
      (m.org = none ↔ matchesOf (orgs.map normOrgRow) m.stat = []) ∧
      ∀ o, m.org = some o → o ∈ matchesOf (orgs.map normOrgRow) m.stat) ∧
    (∀ s, (mergeNormalized stats orgs).countP (fun m => m.stat = s) =
      ((stats.map (fun p => normStatRow p.1 p.2)).countP (fun r => r = s)) *
        max 1 (matchesOf (orgs.map normOrgRow) s).length) := by
  unfold mergeNormalized
  refine ⟨?_, ?_, ?_, ?_, ?_⟩
  · have hh := length_mergeLeft_ge (stats.map (fun p => normStatRow p.1 p.2))
      (orgs.map normOrgRow)
    rwa [List.length_map] at hh
  · have hh := length_mergeLeft_eq_iff (stats.map (fun p => normStatRow p.1 p.2))
      (orgs.map normOrgRow)
    rwa [List.length_map] at hh
  · exact fun s hs => stat_mem_mergeLeft _ _ s hs
  · exact fun m hm => mem_mergeLeft_shape _ _ m hm
  · exact fun s => count_mergeLeft _ _ s

theorem c4_witness :
    ∃ m ∈ mergeNormalized [("2018", ⟨some "123", none, some "VIN1", none⟩)]
        [⟨some "123", some "Acme"⟩],
      m.stat = normStatRow "2018" ⟨some "123", none, some "VIN1", none⟩ :=
  (c4_merge_left_outer_join [("2018", ⟨some "123", none, some "VIN1", none⟩)]
      [⟨some "123", some "Acme"⟩]).2.2.1
    (normStatRow "2018" ⟨some "123", none, some "VIN1", none⟩) (by decide)

/-- C6: the top-VIN ranking of `calculate_stats` has length at most 5, is
sorted by non-increasing count, every listed VIN has a positive count and at
least one surviving record, ties are listed in the order of the underlying
counter (whose keys are in first-encounter order, last clause), and the
ranking restricted to any fixed count is a prefix of the counter restricted
to that count. -/
theorem c6_top_vins_ranking (data : List QueryRecord) (org : String) (dFrom dTo : PyDate) :
    ((calculate_stats data org dFrom dTo).2.2).length ≤ 5 ∧
    List.Pairwise (fun a b : String × Nat => b.2 ≤ a.2)
      ((calculate_stats data org dFrom dTo).2.2) ∧
    (∀ p ∈ (calculate_stats data org dFrom dTo).2.2,
      1 ≤ p.2 ∧ ∃ r ∈ survivors data org dFrom dTo, r.query_vin = some p.1) ∧
    (∀ c : Nat, ((calculate_stats data org dFrom dTo).2.2).filter (fun p => p.2 = c) <+:
      (vinCountOf (dedupByKey (survivors data org dFrom dTo))).filter (fun p => p.2 = c)) ∧
    ((vinCountOf (dedupByKey (survivors data org dFrom dTo))).map (fun p => p.1) =
      firstOccKeys (dedupByKey (survivors data org dFrom dTo))) := by
  simp only [calculate_stats_eq data org dFrom dTo]
  refine ⟨?_, ?_, ?_, ?_, ?_⟩
  · rw [List.length_take]
    omega
  · exact List.Pairwise.sublist (List.take_sublist _ _) (sorted_isortDesc _)
  · intro p hp
    have hp2 : p ∈ isortDesc (vinCountOf (dedupByKey (survivors data org dFrom dTo))) :=
      (List.take_sublist _ _).subset hp
    have hp3 : p ∈ vinCountOf (dedupByKey (survivors data org dFrom dTo)) :=
      (mem_isortDesc p _).mp hp2
    obtain ⟨h1, h2, r, hr, hr2⟩ := vinCountOf_entries _ p hp3
    exact ⟨h1, r, mem_dedupByKey_subset _ r hr, hr2⟩
  · intro c
    have h1 := prefixFilterMono (fun p : String × Nat => p.2 = c)
      (List.take 5 (isortDesc (vinCountOf (dedupByKey (survivors data org dFrom dTo)))))
      (isortDesc (vinCountOf (dedupByKey (survivors data org dFrom dTo))))
      (by exact List.take_prefix _ _)
    rwa [filter_isortDesc] at h1
  · exact keys_vinCountOf _

theorem c6_witness :
    1 ≤ (("A", 2) : String × Nat).2 ∧
      ∃ r ∈ survivors
          [⟨none, none, some "O", some "A", some "2024-01-01T10:00:00", none⟩,
            ⟨none, none, some "O", some "A", some "2024-01-02T10:00:00", none⟩,
            ⟨none, none, some "O", some "B", some "2024-01-03T10:00:00", none⟩]
          "" ⟨2024, 1, 1⟩ ⟨2024, 12, 31⟩,
        r.query_vin = some ("A", 2).1 :=
  (c6_top_vins_ranking
      [⟨none, none, some "O", some "A", some "2024-01-01T10:00:00", none⟩,
        ⟨none, none, some "O", some "A", some "2024-01-02T10:00:00", none⟩,
        ⟨none, none, some "O", some "B", some "2024-01-03T10:00:00", none⟩]
      "" ⟨2024, 1, 1⟩ ⟨2024, 12, 31⟩).2.2.1 ("A", 2) (by decide)

/-- C8: the VIN lookup match is case-insensitive exact matching: querying
the lowercase and the uppercase variant of a string returns identical
result lists; every returned row's VIN equals the (stripped) query up to
case; and a row with a missing VIN is never returned. -/
theorem c8_vin_lookup_case_insensitive (df : List VinRow) (v q : String) :
    (vinFilter df (pyLower v) = vinFilter df (pyUpper v)) ∧
    (∀ r ∈ vinFilter df q, pyUpper ((r.vinnumber).getD "") = pyUpper (pyStrip q)) ∧
    (∀ r ∈ vinFilter df q, r.vinnumber ≠ none) := by
  refine ⟨?_, ?_, ?_⟩
  · unfold vinFilter
    by_cases hsv : pyStrip v = ""
    · have hlow : pyStrip (pyLower v) = "" := by
        rw [pyStrip_pyLower, hsv]
        rfl
      have hup : pyStrip (pyUpper v) = "" := by
        rw [pyStrip_pyUpper, hsv]
        rfl
      rw [if_pos hlow, if_pos hup]
    · have hlow : ¬(pyStrip (pyLower v) = "") := by
        rw [pyStrip_pyLower]
        exact fun h => hsv ((pyLower_eq_empty_iff _).mp h)
      have hup : ¬(pyStrip (pyUpper v) = "") := by
        rw [pyStrip_pyUpper]
        exact fun h => hsv ((pyUpper_eq_empty_iff _).mp h)
      rw [if_neg hlow, if_neg hup]
      have hq : pyUpper (pyStrip (pyLower v)) = pyUpper (pyStrip (pyUpper v)) := by
        rw [pyStrip_pyLower, pyStrip_pyUpper, pyUpper_pyLower, pyUpper_pyUpper]
      rw [hq]
  · intro r hr
    unfold vinFilter at hr
    by_cases hsq : pyStrip q = ""
    · rw [if_pos hsq] at hr
      simp at hr
    · rw [if_neg hsq] at hr
      have h2 := (List.mem_filter.mp hr).2
      simpa using h2
  · intro r hr hnone
    unfold vinFilter at hr
    by_cases hsq : pyStrip q = ""
    · rw [if_pos hsq] at hr
      simp at hr
    · rw [if_neg hsq] at hr
      have h2 : pyUpper ((r.vinnumber).getD "") = pyUpper (pyStrip q) := by
        have hh := (List.mem_filter.mp hr).2
        simpa using hh
      rw [hnone] at h2
      have h3 : pyUpper (pyStrip q) = "" := by
        rw [← h2]
        rfl
      exact hsq ((pyUpper_eq_empty_iff _).mp h3)

theorem c8_witness :
    pyUpper (((⟨some "WVW123", "000000001", none, none⟩ : VinRow).vinnumber).getD "") =
      pyUpper (pyStrip "wvw123") :=
  (c8_vin_lookup_case_insensitive [⟨some "WVW123", "000000001", none, none⟩]
      "x" "wvw123").2.1 ⟨some "WVW123", "000000001", none, none⟩ (by decide)
